import Mathlib

/-!
Shallow embedding of the sveltekit-form repository (src/lib/form.ts, with the
variant snapshot embedded in src/routes/user-form.ts where a claim depends on
it), together with theorems settling the frozen claims about it.

Conventions of the embedding:
* JavaScript `undefined` (and `null`) on a value of type `T` is modelled as
  `Option T` with `none` standing for absence.
* Svelte writable stores become plain record fields; a `derived` store becomes
  a function of the underlying record fields.
* JavaScript objects used as string-keyed maps become association lists
  `List (String × α)` preserving insertion order; the spread update
  `{...m, [k]: v}` becomes `asetKey`, property access becomes `alookup`.
* Async validators are modelled as pure functions `α → Option String`
  (`none` = `undefined`/`void`, i.e. no error).  The JavaScript truthiness
  test `if (error)` on a `string | void` is `errVal`, which also rejects the
  empty string.
-/

namespace SvelteKitForm

/-- Association-list lookup, modelling JavaScript object property access
`m[k]` (first binding wins; keys of modelled objects are unique). -/
def alookup {α : Type} : List (String × α) → String → Option α
  | [], _ => none
  | p :: rest, k => if p.1 = k then some p.2 else alookup rest k

/-- Whether the object has the key `k`. -/
def hasKey {α : Type} (m : List (String × α)) (k : String) : Bool :=
  m.any (fun p => decide (p.1 = k))

/-- Spread update `{...m, [k]: v}`: overwrite the binding of `k` in place if it
exists (JavaScript keeps the original key position), otherwise append it. -/
def asetKey {α : Type} (m : List (String × α)) (k : String) (v : α) : List (String × α) :=
  if hasKey m k then m.map (fun p => if p.1 = k then (k, v) else p) else m ++ [(k, v)]

/-- Update the value bound to `k` in place, leaving other bindings untouched
(no-op when the key is absent). -/
def amap {α : Type} (m : List (String × α)) (k : String) (g : α → α) : List (String × α) :=
  m.map (fun p => if p.1 = k then (p.1, g p.2) else p)

/-- Validation mode of a field (src/lib/form.ts, `FieldMode`). -/
inductive FieldMode where
  | onBlur
  | onChange
  | onSubmit
  | all
deriving DecidableEq

/-- Validator over values of type `α` (src/lib/form.ts, `Validator`):
returns the error string, or nothing if valid.  `none` models a `void`
(`undefined`) return. -/
abbrev Validator (α : Type) := α → Option String

/-- JavaScript truthiness of a `string | void` validator result, as tested by
`if (error)` and `filter(Boolean)`: `undefined` and the empty string are
falsy; any other string is kept. -/
def errVal : Option String → Option String
  | none => none
  | some s => if s = "" then none else some s

/-- Parsed field options (src/lib/form.ts, `FieldOptionsParsed`): `validators`
defaults to `[]`, `multipleErrors` is falsy when absent, `initialValue` is
`String(opts.initialValue)` or `undefined`.  Client-side field values may be
`undefined` (the value store is created from `initialValue`), so validators
take `Option String`. -/
structure FieldOptions where
  mode : FieldMode
  multipleErrors : Bool := false
  validators : List (Validator (Option String)) := []
  initialValue : Option String := none

/-- State of one field (src/lib/form.ts, `field`): the `value` and `errors`
writable stores, the `dirty` flag, the bound input element (`node`, modelled
by its displayed value, `none` while unbound), the `listeners` map (keys of
the `Map<string, ...>`; all values are `handleEvent`) and the set of listeners
actually attached to the element (`nodeListeners`; `reset` removes the input
listener from the element without deleting it from the map, so the two can
differ). -/
structure FieldState where
  options : FieldOptions
  value : Option String
  errors : Option (List String)
  dirty : Bool
  node : Option String
  listeners : List String
  nodeListeners : List String

/-- Field construction (src/lib/form.ts, `field`): stores start at
`writable(options.initialValue)` and `writable(undefined)`, `dirty = false`,
no node bound, empty listener map. -/
def field (opts : FieldOptions) : FieldState :=
  { options := opts
    value := opts.initialValue
    errors := none
    dirty := false
    node := none
    listeners := []
    nodeListeners := [] }

/-- Insert an event key, modelling `Map.set` (overwriting the identical
handler) together with `addEventListener` (which ignores duplicate
registrations of the same handler). -/
def insertEvt (e : String) (l : List String) : List String :=
  if e ∈ l then l else l ++ [e]

/-- Register `handleEvent` for `event` (src/lib/form.ts, `registerEvent`):
no-op while no node is bound, otherwise attaches the listener to the element
and records it in the map. -/
def FieldState.registerEvent (s : FieldState) (e : String) : FieldState :=
  match s.node with
  | none => s
  | some _ =>
    { s with
      listeners := insertEvt e s.listeners
      nodeListeners := insertEvt e s.nodeListeners }

/-- Mark the field dirty (src/lib/form.ts, `setDirty`): on the first call it
also registers the ad-hoc `input` listener. -/
def FieldState.setDirty (s : FieldState) : FieldState :=
  let s' := if !s.dirty then s.registerEvent "input" else s
  { s' with dirty := true }

/-- Set the field's value (src/lib/form.ts, `setValue`): updates the value
store and, when a node is bound, its displayed value. -/
def FieldState.setValue (s : FieldState) (v : String) : FieldState :=
  { s with value := some v, node := s.node.map (fun _ => v) }

/-- Set the field's error list (src/lib/form.ts, `setErrors`). -/
def FieldState.setErrors (s : FieldState) (e : Option (List String)) : FieldState :=
  { s with errors := e }

/-- Reset the field (src/lib/form.ts, `field(...).reset`): restores the
element's displayed value to the initial value (or empty), clears `dirty`,
and removes the `input` listener from the element when the map holds one
(without deleting it from the map).  The value store and the errors store are
not touched. -/
def FieldState.reset (s : FieldState) : FieldState :=
  { s with
    node := s.node.map (fun _ => s.options.initialValue.getD "")
    dirty := false
    nodeListeners :=
      if "input" ∈ s.listeners then s.nodeListeners.erase "input" else s.nodeListeners }

/-- Event keys registered on mount for a mode (src/lib/form.ts, the `switch`
in `action`). -/
def modeEvents : FieldMode → List String
  | .onBlur => ["blur"]
  | .onChange => ["change"]
  | .onSubmit => ["submit"]
  | .all => ["blur", "change", "submit"]

/-- Bind the field to an input element (src/lib/form.ts, `action`): stores the
node, displays the initial value (or empty), and registers the mode-based
listeners. -/
def FieldState.attach (s : FieldState) : FieldState :=
  let s' := { s with node := some (s.options.initialValue.getD "") }
  (modeEvents s.options.mode).foldl (fun t e => t.registerEvent e) s'

/-- The DOM listener `handleEvent` (src/lib/form.ts): fired with the element's
current value `v`; marks the field dirty, then sets the value store. -/
def FieldState.handleEventFire (s : FieldState) (v : String) : FieldState :=
  let s1 := s.setDirty
  { s1 with value := some v, node := s1.node.map (fun _ => v) }

/-- Snapshot exposed by the derived store (src/lib/form.ts, lines 75-79). -/
structure FieldSnapshot where
  value : Option String
  errors : Option (List String)
  error : Option String

/-- The derived projection of a field (src/lib/form.ts, lines 75-79):
`error: $errors && $errors[0]` — `undefined` when `$errors` is `undefined`,
otherwise the first element (`undefined` again for an empty array). -/
def FieldState.project (s : FieldState) : FieldSnapshot :=
  { value := s.value
    errors := s.errors
    error :=
      match s.errors with
      | none => none
      | some l => l.head? }

/-- Run a field's validators sequentially against a value (src/lib/form.ts,
the loop of `validateField`): a failing (truthy) result is collected, and the
loop stops at the first failure unless `multipleErrors` is set. -/
def runValidators {α : Type} : List (Validator α) → Bool → α → List String
  | [], _, _ => []
  | u :: rest, multiple, v =>
    match errVal (u v) with
    | some e => if multiple then e :: runValidators rest multiple v else [e]
    | none => runValidators rest multiple v

/-- The value stored for a list of collected error messages
(`errs.length ? errs : undefined`, src/lib/form.ts `validateField`; the
server-side `errs.length ? errs : null` is modelled the same way). -/
def storedErrors (errs : List String) : Option (List String) :=
  if errs.isEmpty then none else some errs

/-- The derived `anyError` flag (src/lib/form.ts, line 136):
`Object.values($errors).some(Boolean)`.  An entry that is present with an
array value is truthy (even an empty array would be); `undefined`/`null`
entries are falsy. -/
def anyError (m : List (String × Option (List String))) : Bool :=
  m.any (fun p => p.2.isSome)

/-- State of a form (src/lib/form.ts, `createForm`): the field mapping and the
aggregate `errors` writable store.  `anyError` is derived from `errors` by the
function `anyError` above and is therefore not part of the state. -/
structure FormState where
  fields : List (String × FieldState)
  errors : List (String × Option (List String))

/-- Form construction (src/lib/form.ts, `createForm`): aggregate error map
starts empty. -/
def createForm (fields : List (String × FieldState)) : FormState :=
  { fields := fields, errors := [] }

/-- Client-side validation of one field (src/lib/form.ts, `validateField`):
runs the field's validators against `v`, then writes the collected messages
(or `undefined` when none failed) both onto the field's errors store and into
the aggregate map under the field's key. -/
def FormState.validateField (st : FormState) (k : String) (v : Option String) : FormState :=
  match alookup st.fields k with
  | none => st
  | some f =>
    let errs := runValidators f.options.validators f.options.multipleErrors v
    { fields := amap st.fields k (fun g => g.setErrors (storedErrors errs))
      errors := asetKey st.errors k (storedErrors errs) }

/-- Apply `g` to the field bound to `k`, a no-op when no field has that name
(the `if (!field) return` guard). -/
def FormState.updateField (st : FormState) (k : String) (g : FieldState → FieldState) : FormState :=
  { st with fields := amap st.fields k g }

/-- First pass of `populate` (src/lib/form.ts, lines 171-176): for every entry
of the server errors map whose key names a field, set the field's errors to
the entry and mark the field dirty; entries naming no field are skipped. -/
def populateErrsPass (st : FormState) (es : List (String × Option (List String))) : FormState :=
  es.foldl (fun acc p => acc.updateField p.1 (fun f => (f.setErrors p.2).setDirty)) st

/-- Second pass of `populate` (src/lib/form.ts, lines 177-181): write each
server-reported value back onto the named field; entries naming no field are
skipped. -/
def populateValsPass (st : FormState) (vs : List (String × String)) : FormState :=
  vs.foldl (fun acc p => acc.updateField p.1 (fun f => f.setValue p.2)) st

/-- Aggregate result of server-side validation (src/lib/form.ts,
`ServerValidationResult`). -/
structure ServerValidationResult where
  errors : List (String × Option (List String))
  anyError : Bool
  values : List (String × String)

/-- Reconcile a server validation result into the form (src/lib/form.ts,
`populate`): set errors and dirty on the fields named by the errors map, write
back the values of the values map, then replace the aggregate error map
wholesale. -/
def FormState.populate (st : FormState) (v : ServerValidationResult) : FormState :=
  { populateValsPass (populateErrsPass st v.errors) v.values with errors := v.errors }

/-- Form-level reset (src/lib/form.ts, lines 184-187): reset every field and
clear the aggregate error map. -/
def FormState.reset (st : FormState) : FormState :=
  { fields := st.fields.map (fun p => (p.1, p.2.reset)), errors := [] }

/-- Read of a posted value (src/lib/form.ts, line 195):
`data.get(key)?.toString() ?? ''`. -/
def formDataGet (data : List (String × String)) (k : String) : String :=
  (alookup data k).getD ""

/-- All failing messages of a validator list against a posted string value
(src/lib/form.ts, lines 198 and 202): every validator is invoked via
`Promise.all` — regardless of `multipleErrors` — and the results are filtered
by truthiness. -/
def serverErrs (vs : List (Validator (Option String))) (v : String) : List String :=
  (vs.map (fun u => u (some v))).filterMap errVal

/-- Server-side re-validation of posted form data (src/lib/form.ts,
`validateFormData`): per field, the posted value (defaulted to the empty
string) is recorded in `values` and run through all of the field's
validators; the errors map stores the failing messages or `null`, and
`anyError` is set when some field has a failing message. -/
def validateFormData (fields : List (String × FieldOptions)) (data : List (String × String)) :
    ServerValidationResult :=
  { errors := fields.map (fun p => (p.1, storedErrors (serverErrs p.2.validators (formDataGet data p.1))))
    anyError := fields.any (fun p => !(serverErrs p.2.validators (formDataGet data p.1)).isEmpty)
    values := fields.map (fun p => (p.1, formDataGet data p.1)) }

/-- Outcome of the server action produced by `validate` (src/lib/form.ts,
lines 210-218): either `fail(400, validation)` or `{ success: true }`. -/
inductive HandlerOutcome where
  | failure (status : Nat) (payload : ServerValidationResult)
  | success

/-- The server action produced by `validate` (src/lib/form.ts, lines 210-218):
re-validate the posted data; on any error return `fail(400, validation)`
without invoking the submit callback, otherwise invoke the submit callback and
return the success marker.  The callback is modelled as a state transformer on
an abstract state `σ` so that its (non-)invocation is observable. -/
def validate {σ : Type} (fields : List (String × FieldOptions))
    (submit : ServerValidationResult → σ → σ)
    (data : List (String × String)) (s : σ) : HandlerOutcome × σ :=
  let validation := validateFormData fields data
  if validation.anyError then (.failure 400 validation, s)
  else (.success, submit validation s)

/-- Whether a Svelte writable store notifies its subscribers on `set`
(svelte/store `safe_not_equal`, specialised to strings and `undefined`):
subscribers run exactly when the new value differs from the old one. -/
def storeNotifies (oldv newv : Option String) : Bool :=
  decide (oldv ≠ newv)

/-- Whether the per-field subscription installed by `createForm`
(src/lib/form.ts, lines 138-142) validates the field when its callback runs:
`v => { if (field.dirty) validateField(key, field, v) }`.  This is also what
happens at subscription time, when Svelte immediately invokes the callback
with the current value. -/
def subscribeFire (s : FieldState) : Bool :=
  s.dirty

/-- Operations that can act on a single field after form construction. -/
inductive FieldOp where
  | setValue (v : String)
  | setDirty
  | setErrors (e : Option (List String))
  | reset
  | handleEventFire (v : String)
  | attach

/-- One step of a field under the subscription of `createForm`: the resulting
state, paired with whether the subscription validated the field during the
step.  Only `value.set` calls (from `setValue` and from the DOM handler
`handleEvent`, which marks the field dirty first) can notify the value
subscribers; the callback then validates exactly when `dirty` holds. -/
def FieldState.step (s : FieldState) : FieldOp → FieldState × Bool
  | .setValue v => (s.setValue v, storeNotifies s.value (some v) && s.dirty)
  | .setDirty => (s.setDirty, false)
  | .setErrors e => (s.setErrors e, false)
  | .reset => (s.reset, false)
  | .handleEventFire v =>
    (s.handleEventFire v, storeNotifies s.setDirty.value (some v) && s.setDirty.dirty)
  | .attach => (s.attach, false)

/-- Run a sequence of field operations, recording whether any step's
subscription callback validated the field. -/
def FieldState.runTrace (s : FieldState) : List FieldOp → FieldState × Bool
  | [] => (s, false)
  | op :: rest =>
    let r := s.step op
    let r' := r.1.runTrace rest
    (r'.1, r.2 || r'.2)

end SvelteKitForm

namespace SvelteKitFormVariant

open SvelteKitForm (FieldMode Validator errVal alookup asetKey amap hasKey insertEvt
  runValidators storedErrors anyError)

/-- Client-side field value in the variant library embedded in
src/routes/user-form.ts: `type Value = string | File`.  A `File` is modelled
by its identity as a string. -/
inductive VValue where
  | str (s : String)
  | file (f : String)
deriving DecidableEq

/-- An input element in the variant: its text value and its selected files
(`node.files`, empty for text inputs). -/
structure VNode where
  value : String
  files : List String
deriving DecidableEq

/-- Parsed options of a variant field (src/routes/user-form.ts, lines 31-39).
`isFile` records the type parameter `V` of `Field<V>`: when `V` is `File` the
type of `mode` collapses to `'onChange'`, so a file-typed field can only be
constructed with mode `onChange`. -/
structure VFieldOptions where
  mode : FieldMode
  isFile : Bool := false
  multipleErrors : Bool := false
  validators : List (Validator VValue) := []
  initialValue : Option String := none

/-- State of a variant field (src/routes/user-form.ts, lines 59-138): value
store (initialised to `initialValue ?? ''`), errors store, `dirty` writable
plus the `alreadyDirty` flag, bound node, listener map. -/
structure VFieldState where
  options : VFieldOptions
  value : VValue
  errors : Option (List String)
  dirty : Bool
  alreadyDirty : Bool
  node : Option VNode
  listeners : List String

/-- Variant field construction. -/
def vfield (opts : VFieldOptions) : VFieldState :=
  { options := opts
    value := .str (opts.initialValue.getD "")
    errors := none
    dirty := false
    alreadyDirty := false
    node := none
    listeners := [] }

/-- Variant `registerEvent` (src/routes/user-form.ts, lines 87-91): no-op
without a node, otherwise records the listener. -/
def VFieldState.registerEvent (f : VFieldState) (e : String) : VFieldState :=
  match f.node with
  | none => f
  | some _ => { f with listeners := insertEvt e f.listeners }

/-- Variant `setDirty` (src/routes/user-form.ts, lines 70-75): returns
immediately when already dirty, otherwise sets both dirtiness records and
registers the `input` listener. -/
def VFieldState.setDirty (f : VFieldState) : VFieldState :=
  if f.alreadyDirty then f
  else ({ f with alreadyDirty := true, dirty := true }).registerEvent "input"

/-- Variant `readValue` (src/routes/user-form.ts, lines 80-84): no-op without
a node; otherwise reads `node.files?.[0] ?? node.value` into the value
store. -/
def VFieldState.readValue (f : VFieldState) : VFieldState :=
  match f.node with
  | none => f
  | some n =>
    { f with
      value :=
        match n.files.head? with
        | some file => .file file
        | none => .str n.value }

/-- Variant `setValue` (src/routes/user-form.ts, lines 76-79): sets the store
and, for string values with a bound node, the displayed value. -/
def VFieldState.setValue (f : VFieldState) (v : VValue) : VFieldState :=
  { f with
    value := v
    node :=
      match v with
      | .str s => f.node.map (fun n => { n with value := s })
      | .file _ => f.node }

/-- State of a variant form (src/routes/user-form.ts, `createForm`). -/
structure VFormState where
  fields : List (String × VFieldState)
  errors : List (String × Option (List String))

/-- Variant client-side validation of one field (src/routes/user-form.ts,
lines 165-176): identical to the primary library's `validateField`, with
values of type `VValue`. -/
def VFormState.validateField (st : VFormState) (k : String) (v : VValue) : VFormState :=
  match alookup st.fields k with
  | none => st
  | some f =>
    let errs := runValidators f.options.validators f.options.multipleErrors v
    { fields := amap st.fields k (fun g => { g with errors := storedErrors errs })
      errors := asetKey st.errors k (storedErrors errs) }

/-- Variant `validateAll` (src/routes/user-form.ts, lines 177-179): validate
every field against its current value (field values are never changed by
validation, so reading them up front is equivalent to `get(field).value` at
each call). -/
def VFormState.validateAll (st : VFormState) : VFormState :=
  st.fields.foldl (fun acc p => acc.validateField p.1 p.2.value) st

/-- The synchronous pre-pass of the variant submission interceptor
(src/routes/user-form.ts, lines 206-211): every field whose mode is
`onSubmit` or `all` is marked dirty and has its value re-read from the
element; all other fields are untouched. -/
def VFormState.prePass (st : VFormState) : VFormState :=
  { st with
    fields := st.fields.map (fun p =>
      (p.1,
        if p.2.options.mode = .onSubmit ∨ p.2.options.mode = .all
        then p.2.setDirty.readValue
        else p.2)) }

/-- The variant submission interceptor `enhancer` (src/routes/user-form.ts,
lines 205-215): run the pre-pass, await validation of every field, and report
whether `cancel()` was invoked, which happens exactly when the derived
`anyError` flag is set after the wait.  (Validations triggered through the
value/dirty subscription during the pre-pass touch only the same per-field
error entries that `validateAll` then overwrites, so they are not modelled
separately.) -/
def VFormState.enhancer (st : VFormState) : VFormState × Bool :=
  let st' := st.prePass.validateAll
  (st', anyError st'.errors)

end SvelteKitFormVariant

namespace SvelteKitForm

/-- States of the aggregate error map reachable through the form's own
operations (src/lib/form.ts): it starts empty (`createForm`), each
client-side validation overwrites one key with
`errs.length ? errs : undefined` (`validateField`, also reached from the
value subscriptions and from the enhancer's `validateAll` — `errs` is kept
abstract, covering every list of messages validators can produce), `populate`
replaces it wholesale with the errors map of a server validation result, and
`reset` empties it. -/
inductive ErrorsReachable : List (String × Option (List String)) → Prop where
  | init : ErrorsReachable []
  | validate (m : List (String × Option (List String))) (k : String) (errs : List String) :
      ErrorsReachable m → ErrorsReachable (asetKey m k (storedErrors errs))
  | populate (m : List (String × Option (List String)))
      (fields : List (String × FieldOptions)) (data : List (String × String)) :
      ErrorsReachable m → ErrorsReachable (validateFormData fields data).errors
  | reset (m : List (String × Option (List String))) :
      ErrorsReachable m → ErrorsReachable []

/-- Sample options: an on-blur field with no validators. -/
def sampleOpts : FieldOptions := { mode := .onBlur }

/-- Validator that always fails with message `e1`. -/
def vAlways1 : Validator (Option String) := fun _ => some "e1"

/-- Validator that always fails with message `e2`. -/
def vAlways2 : Validator (Option String) := fun _ => some "e2"

/-- Options of a field with two always-failing validators and
`multipleErrors` off. -/
def exTwoValOpts : FieldOptions :=
  { mode := .onSubmit, multipleErrors := false, validators := [vAlways1, vAlways2] }

/-- One-field mapping used to exercise the server-side validation. -/
def exTwoValFields : List (String × FieldOptions) := [("a", exTwoValOpts)]

/-- Options with an initial value, used to exercise `reset`. -/
def exResetOpts : FieldOptions := { mode := .onBlur, initialValue := some "a" }

/-- A field whose value was changed to `b` and whose errors were set after
construction with initial value `a`. -/
def exResetState : FieldState := ((field exResetOpts).setValue "b").setErrors (some ["e"])

/-- One-field form around `exResetState`. -/
def exResetForm : FormState := { fields := [("f1", exResetState)], errors := [("f1", some ["e"])] }

/-- A freshly constructed field with the two always-failing validators. -/
def exTwoValField : FieldState := field { mode := .onBlur, validators := [vAlways1, vAlways2] }

/-- One-field form around `exTwoValField`. -/
def exTwoValForm : FormState := { fields := [("f1", exTwoValField)], errors := [] }

/-- Two-field form used to exercise the `populate` frame property. -/
def exPairForm : FormState :=
  { fields := [("a", field sampleOpts), ("b", field sampleOpts)], errors := [] }

/-- Server validation result naming only field `a`. -/
def exPairResult : ServerValidationResult :=
  { errors := [("a", some ["srv"])], anyError := true, values := [("a", "x")] }

end SvelteKitForm

namespace SvelteKitFormVariant

/-- A file-typed variant field (`isFile = true`, hence mode `onChange` by the
type of `FieldOptions<V>`): bound to an element with one selected file, while
the value store still holds the initial empty string. -/
def exFileField : VFieldState :=
  { options := { mode := .onChange, isFile := true }
    value := .str ""
    errors := none
    dirty := false
    alreadyDirty := false
    node := some { value := "", files := ["f.png"] }
    listeners := [] }

/-- One-field variant form around `exFileField`. -/
def exFileForm : VFormState := { fields := [("picture", exFileField)], errors := [] }

end SvelteKitFormVariant

namespace SvelteKitForm

theorem alookup_map_pair {α β : Type} (m : List (String × α)) (g : String × α → β) (k : String) :
    alookup (m.map (fun p => (p.1, g p))) k = (alookup m k).map (fun v => g (k, v)) := by
  induction m with
  | nil => rfl
  | cons p rest ih =>
    by_cases hk : p.1 = k
    · subst hk
      simp [alookup]
    · simp [alookup, hk, ih]

theorem alookup_of_mem_nodup {α : Type} {m : List (String × α)} {k : String} {v : α}
    (hmem : (k, v) ∈ m) (hnd : (m.map Prod.fst).Nodup) : alookup m k = some v := by
  induction m with
  | nil => cases hmem
  | cons p rest ih =>
    rcases List.mem_cons.mp hmem with hp | hp
    · cases hp
      simp [alookup]
    · have hk : p.1 ≠ k := by
        intro hkk
        have hkmem : k ∈ rest.map Prod.fst := List.mem_map.mpr ⟨(k, v), hp, rfl⟩
        have := (List.nodup_cons.mp hnd).1
        rw [hkk] at this
        exact this hkmem
      simp only [alookup, hk, if_false]
      exact ih hp (List.nodup_cons.mp hnd).2

theorem alookup_overwrite_self {α : Type} {m : List (String × α)} {k : String} (v : α)
    (hmem : hasKey m k = true) :
    alookup (m.map (fun p => if p.1 = k then (k, v) else p)) k = some v := by
  induction m with
  | nil => simp [hasKey] at hmem
  | cons p rest ih =>
    by_cases hk : p.1 = k
    · simp [alookup, hk]
    · have hrest : hasKey rest k = true := by
        simpa [hasKey, List.any_cons, hk] using hmem
      simp [alookup, hk, ih hrest]

theorem alookup_overwrite_ne {α : Type} (m : List (String × α)) (k k' : String) (v : α)
    (hne : k' ≠ k) :
    alookup (m.map (fun p => if p.1 = k then (k, v) else p)) k' = alookup m k' := by
  induction m with
  | nil => rfl
  | cons p rest ih =>
    simp only [List.map_cons]
    by_cases hk : p.1 = k
    · rw [if_pos hk]
      simp only [alookup]
      have hpk' : ¬p.1 = k' := by rw [hk]; exact Ne.symm hne
      rw [if_neg (Ne.symm hne), if_neg hpk', ih]
    · rw [if_neg hk]
      simp only [alookup]
      by_cases hk' : p.1 = k'
      · rw [if_pos hk', if_pos hk']
      · rw [if_neg hk', if_neg hk', ih]

theorem alookup_none_of_hasKey_false {α : Type} {m : List (String × α)} {k : String}
    (hmem : hasKey m k = false) : alookup m k = none := by
  induction m with
  | nil => rfl
  | cons p rest ih =>
    have hk : p.1 ≠ k := by
      intro hkk
      simp [hasKey, List.any_cons, hkk] at hmem
    have hrest : hasKey rest k = false := by
      simpa [hasKey, List.any_cons, hk] using hmem
    simp [alookup, hk, ih hrest]

theorem alookup_append_single_self {α : Type} {m : List (String × α)} {k : String} (v : α)
    (hmem : hasKey m k = false) : alookup (m ++ [(k, v)]) k = some v := by
  induction m with
  | nil => simp [alookup]
  | cons p rest ih =>
    have hk : p.1 ≠ k := by
      intro hkk
      simp [hasKey, List.any_cons, hkk] at hmem
    have hrest : hasKey rest k = false := by
      simpa [hasKey, List.any_cons, hk] using hmem
    simpa [alookup, hk] using ih hrest

theorem alookup_append_single_ne {α : Type} (m : List (String × α)) (k k' : String) (v : α)
    (hne : k' ≠ k) : alookup (m ++ [(k, v)]) k' = alookup m k' := by
  induction m with
  | nil => simp [alookup, Ne.symm hne]
  | cons p rest ih =>
    by_cases hk' : p.1 = k'
    · simp [alookup, hk']
    · simpa [alookup, hk'] using ih

theorem alookup_asetKey_self {α : Type} (m : List (String × α)) (k : String) (v : α) :
    alookup (asetKey m k v) k = some v := by
  unfold asetKey
  by_cases hmem : hasKey m k = true
  · simpa [hmem] using alookup_overwrite_self v hmem
  · have hf : hasKey m k = false := by simpa using hmem
    simpa [hf] using alookup_append_single_self v hf

theorem alookup_asetKey_ne {α : Type} (m : List (String × α)) (k k' : String) (v : α)
    (hne : k' ≠ k) : alookup (asetKey m k v) k' = alookup m k' := by
  unfold asetKey
  by_cases hmem : hasKey m k = true
  · simpa [hmem] using alookup_overwrite_ne m k k' v hne
  · have hf : hasKey m k = false := by simpa using hmem
    simpa [hf] using alookup_append_single_ne m k k' v hne

theorem alookup_amap_self {α : Type} (m : List (String × α)) (k : String) (g : α → α) :
    alookup (amap m k g) k = (alookup m k).map g := by
  induction m with
  | nil => rfl
  | cons p rest ih =>
    by_cases hk : p.1 = k
    · simp [amap, alookup, hk]
    · simp [amap, alookup, hk] at ih ⊢
      exact ih

theorem alookup_amap_ne {α : Type} (m : List (String × α)) (k k' : String) (g : α → α)
    (hne : k' ≠ k) : alookup (amap m k g) k' = alookup m k' := by
  induction m with
  | nil => rfl
  | cons p rest ih =>
    simp only [amap, List.map_cons] at ih ⊢
    by_cases hk : p.1 = k
    · rw [if_pos hk]
      simp only [alookup]
      have hpk' : ¬p.1 = k' := by rw [hk]; exact Ne.symm hne
      rw [if_neg hpk', if_neg hpk', ih]
    · rw [if_neg hk]
      simp only [alookup]
      by_cases hk' : p.1 = k'
      · rw [if_pos hk', if_pos hk']
      · rw [if_neg hk', if_neg hk', ih]

theorem amap_keys {α : Type} (m : List (String × α)) (k : String) (g : α → α) :
    (amap m k g).map Prod.fst = m.map Prod.fst := by
  induction m with
  | nil => rfl
  | cons p rest ih =>
    by_cases hk : p.1 = k
    · simp [amap, hk] at ih ⊢
      exact ih
    · simp [amap, hk] at ih ⊢
      exact ih

theorem mem_asetKey {α : Type} {m : List (String × α)} {k : String} {v : α} {p : String × α}
    (hp : p ∈ asetKey m k v) : p ∈ m ∨ p.2 = v := by
  unfold asetKey at hp
  by_cases hmem : hasKey m k = true
  · simp only [hmem, if_true] at hp
    rcases List.mem_map.mp hp with ⟨q, hq, hqe⟩
    by_cases hk : q.1 = k
    · simp only [hk, if_true] at hqe
      right
      rw [← hqe]
    · simp only [hk, if_false] at hqe
      left
      rw [← hqe]
      exact hq
  · simp only [Bool.not_eq_true] at hmem
    simp only [hmem, Bool.false_eq_true, if_false] at hp
    rcases List.mem_append.mp hp with h | h
    · exact Or.inl h
    · right
      rcases List.mem_singleton.mp h with rfl
      rfl

end SvelteKitForm


namespace SvelteKitForm

theorem map_fst_pairmap {α β : Type} (m : List (String × α)) (g : String × α → β) :
    (m.map (fun p => (p.1, g p))).map Prod.fst = m.map Prod.fst := by
  induction m with
  | nil => rfl
  | cons p rest ih => simp [ih]

theorem storedErrors_ne_some_nil (errs : List String) : storedErrors errs ≠ some [] := by
  cases errs <;> simp [storedErrors]

theorem runValidators_first_fail {α : Type} (v : α) :
    ∀ (pre : List (Validator α)) (u : Validator α) (post : List (Validator α)) (e : String),
      (∀ w ∈ pre, errVal (w v) = none) → errVal (u v) = some e →
      runValidators (pre ++ u :: post) false v = [e] := by
  intro pre
  induction pre with
  | nil =>
    intro u post e _ hu
    simp [runValidators, hu]
  | cons w ws ih =>
    intro u post e hpre hu
    have hw : errVal (w v) = none := hpre w (List.mem_cons_self w ws)
    simp only [List.cons_append, runValidators, hw]
    exact ih u post e (fun x hx => hpre x (List.mem_cons_of_mem w hx)) hu

theorem runValidators_all_pass {α : Type} (vs : List (Validator α)) (b : Bool) (v : α)
    (h : ∀ w ∈ vs, errVal (w v) = none) : runValidators vs b v = [] := by
  induction vs with
  | nil => rfl
  | cons w ws ih =>
    have hw := h w (List.mem_cons_self w ws)
    simp only [runValidators, hw]
    exact ih (fun x hx => h x (List.mem_cons_of_mem w hx))

/-- C1: At every field state — hence at every reachable state, after every
operation (construction, setValue, setErrors, setDirty, reset, validation) —
the derived projection's `error` component equals the first element of the
`errors` list when that list is non-empty, and is absent when `errors` is
empty or absent. -/
theorem C1_error_first_of_errors (s : FieldState) :
    (∀ e t, s.errors = some (e :: t) → s.project.error = some e) ∧
    (s.errors = none → s.project.error = none) ∧
    (s.errors = some [] → s.project.error = none) := by
  refine ⟨fun e t he => ?_, fun he => ?_, fun he => ?_⟩ <;>
    simp [FieldState.project, he]

theorem C1_error_first_of_errors_witness :
    ((field sampleOpts).setErrors (some ["e1", "e2"])).project.error = some "e1" :=
  (C1_error_first_of_errors _).1 "e1" ["e2"] rfl

/-- C9: Calling `setDirty` twice in succession leaves the entire field state
(dirty flag, value, errors, node, and both listener records) identical to the
state after calling it once: the second call skips `registerEvent` because
`dirty` already holds, and re-setting `dirty = true` changes nothing. -/
theorem C9_setDirty_idempotent (s : FieldState) :
    s.setDirty.setDirty = s.setDirty := rfl

/-- C6 counterexample: after construction with initial value `a`, a value
change to `b` and an error assignment, `reset` leaves the value store at `b`
and the errors store at `["e"]` — the claim requires the value to return to
`a` and the errors to be cleared.  (Only the dirty flag is cleared and only
the element's displayed value is restored.) -/
theorem C6_reset_counterexample :
    exResetState.options.initialValue = some "a" ∧
    exResetState.reset.value = some "b" ∧
    exResetState.reset.errors = some ["e"] ∧
    exResetState.reset.dirty = false :=
  ⟨rfl, rfl, rfl, rfl⟩

/-- C6 amended: `reset` clears the dirty flag, restores the bound element's
displayed value to the initial value (or empty when none was given), removes
the ad-hoc `input` listener from the element (leaving the listener map and
the mode-based listeners), and leaves the field's value store and errors
store unchanged; a form-level reset resets every field this way and empties
the aggregate error map. -/
theorem C6_reset_amended :
    (∀ s : FieldState,
      s.reset.dirty = false ∧
      s.reset.value = s.value ∧
      s.reset.errors = s.errors ∧
      s.reset.node = s.node.map (fun _ => s.options.initialValue.getD "") ∧
      s.reset.listeners = s.listeners) ∧
    (∀ s : FieldState, "input" ∈ s.listeners →
      s.reset.nodeListeners = s.nodeListeners.erase "input") ∧
    (∀ s : FieldState, "input" ∉ s.listeners →
      s.reset.nodeListeners = s.nodeListeners) ∧
    (∀ st : FormState, st.reset.errors = [] ∧
      ∀ k f, alookup st.fields k = some f → alookup st.reset.fields k = some f.reset) := by
  refine ⟨fun s => ⟨rfl, rfl, rfl, rfl, rfl⟩,
    fun s h => by simp [FieldState.reset, h],
    fun s h => by simp [FieldState.reset, h],
    fun st => ⟨rfl, fun k f h => ?_⟩⟩
  show alookup (st.fields.map (fun p => (p.1, p.2.reset))) k = some f.reset
  rw [alookup_map_pair st.fields (fun p => p.2.reset) k, h]
  rfl

theorem C6_reset_amended_witness :
    alookup exResetForm.reset.fields "f1" = some exResetState.reset :=
  (C6_reset_amended.2.2.2 exResetForm).2 "f1" exResetState rfl

/-- C7: The server action built by `validate` returns the 400 failure payload
exactly when re-validating the posted data yields `anyError`, and otherwise
invokes the submit callback and returns the success marker; the callback
state is untouched in the failure case, so exactly one of the two outcomes
occurs per request. -/
theorem C7_validate_outcome {σ : Type} (fields : List (String × FieldOptions))
    (submit : ServerValidationResult → σ → σ) (data : List (String × String)) (s : σ) :
    ((validate fields submit data s).1
        = HandlerOutcome.failure 400 (validateFormData fields data)
      ↔ (validateFormData fields data).anyError = true) ∧
    ((validate fields submit data s).1 = HandlerOutcome.success
      ↔ (validateFormData fields data).anyError = false) ∧
    ((validateFormData fields data).anyError = true → (validate fields submit data s).2 = s) ∧
    ((validateFormData fields data).anyError = false →
      (validate fields submit data s).2 = submit (validateFormData fields data) s) := by
  cases h : (validateFormData fields data).anyError <;>
    simp [validate, h]

theorem C7_validate_outcome_witness :
    (validate exTwoValFields (fun _ n => n + 1) [] (0 : Nat)).2 = 0 :=
  (C7_validate_outcome exTwoValFields (fun _ n => n + 1) [] 0).2.2.1 rfl

/-- C3 counterexample: a field with two always-failing validators and
`multipleErrors = false`.  Server-side `validateFormData` reports both
messages — the second validator is invoked and its message appears in the
result — whereas the claim requires validation to stop at the first failing
validator (as the client-side `runValidators` loop indeed does, yielding only
the first message). -/
theorem C3_stop_at_first_counterexample :
    exTwoValOpts.multipleErrors = false ∧
    (validateFormData exTwoValFields []).errors = [("a", some ["e1", "e2"])] ∧
    runValidators exTwoValOpts.validators exTwoValOpts.multipleErrors (some "") = ["e1"] :=
  ⟨rfl, rfl, rfl⟩

end SvelteKitForm

namespace SvelteKitForm

theorem anyError_eq_of_no_empty {m : List (String × Option (List String))}
    (hinv : ∀ p ∈ m, p.2 ≠ some []) :
    anyError m = m.any (fun p => !(p.2.getD []).isEmpty) := by
  induction m with
  | nil => rfl
  | cons p rest ih =>
    have hp : p.2 ≠ some [] := hinv p (List.mem_cons_self p rest)
    have hrest := ih (fun q hq => hinv q (List.mem_cons_of_mem p hq))
    simp only [anyError, List.any_cons] at hrest ⊢
    rw [hrest]
    congr 1
    cases hpe : p.2 with
    | none => rfl
    | some l =>
      cases l with
      | nil => exact absurd hpe hp
      | cons a as => rfl

theorem errorsReachable_no_empty {m : List (String × Option (List String))}
    (h : ErrorsReachable m) : ∀ p ∈ m, p.2 ≠ some [] := by
  induction h with
  | init => intro p hp; cases hp
  | validate m k errs _ ih =>
    intro p hp
    rcases mem_asetKey hp with hmem | hval
    · exact ih p hmem
    · rw [hval]; exact storedErrors_ne_some_nil errs
  | populate m fields data _ _ =>
    intro p hp
    rcases List.mem_map.mp hp with ⟨q, _, rfl⟩
    exact storedErrors_ne_some_nil _
  | reset m _ _ => intro p hp; cases hp

/-- C2: At every reachable state of the aggregate error map, the derived
`anyError` flag equals the logical OR, over all entries of the map, of that
entry's error list being non-empty.  `anyError` is a derived value (a
function of the map, line 136 of src/lib/form.ts); the operations only ever
update the map, and they never store an entry that is present but empty, so
the truthiness test `some(Boolean)` coincides with non-emptiness. -/
theorem C2_anyError_or (m : List (String × Option (List String)))
    (h : ErrorsReachable m) :
    anyError m = m.any (fun p => !(p.2.getD []).isEmpty) :=
  anyError_eq_of_no_empty (errorsReachable_no_empty h)

theorem C2_anyError_or_witness :
    anyError (asetKey [] "a" (storedErrors ["e"]))
      = (asetKey ([] : List (String × Option (List String))) "a" (storedErrors ["e"])).any
          (fun p => !(p.2.getD []).isEmpty) :=
  C2_anyError_or _ (ErrorsReachable.validate [] "a" ["e"] ErrorsReachable.init)

/-- C4: Client-side validation of a field runs its validators in declared
order against the value (the `runValidators` loop), stopping at the first
failing validator when `multipleErrors` is off, and writes the collected
messages (or their absence when none failed) both onto the field's own errors
store and into the form's aggregate error map under the field's key. -/
theorem C4_validateField (st : FormState) (k : String) (f : FieldState) (v : Option String)
    (hf : alookup st.fields k = some f) :
    alookup (st.validateField k v).fields k
      = some (f.setErrors (storedErrors
          (runValidators f.options.validators f.options.multipleErrors v))) ∧
    alookup (st.validateField k v).errors k
      = some (storedErrors (runValidators f.options.validators f.options.multipleErrors v)) ∧
    (f.options.multipleErrors = false →
      ∀ pre u post e, f.options.validators = pre ++ u :: post →
        (∀ w ∈ pre, errVal (w v) = none) → errVal (u v) = some e →
        runValidators f.options.validators f.options.multipleErrors v = [e]) ∧
    ((∀ w ∈ f.options.validators, errVal (w v) = none) →
      runValidators f.options.validators f.options.multipleErrors v = []) := by
  refine ⟨?_, ?_, ?_, ?_⟩
  · simp only [FormState.validateField, hf]
    rw [alookup_amap_self, hf]
    rfl
  · simp only [FormState.validateField, hf]
    exact alookup_asetKey_self st.errors k _
  · intro hmult pre u post e hsplit hpre hu
    rw [hsplit, hmult]
    exact runValidators_first_fail v pre u post e hpre hu
  · intro hall
    exact runValidators_all_pass _ _ _ hall

theorem C4_validateField_witness :
    alookup (exTwoValForm.validateField "f1" (some "x")).errors "f1"
      = some (storedErrors (runValidators exTwoValField.options.validators
          exTwoValField.options.multipleErrors (some "x"))) :=
  (C4_validateField exTwoValForm "f1" exTwoValField (some "x") rfl).2.1

theorem populateErrsPass_lookup_skip (es : List (String × Option (List String)))
    (st : FormState) (k : String) (h : ∀ p ∈ es, p.1 ≠ k) :
    alookup (populateErrsPass st es).fields k = alookup st.fields k := by
  induction es generalizing st with
  | nil => rfl
  | cons p rest ih =>
    have hstep : populateErrsPass st (p :: rest)
        = populateErrsPass (st.updateField p.1 (fun f => (f.setErrors p.2).setDirty)) rest := rfl
    rw [hstep, ih _ (fun q hq => h q (List.mem_cons_of_mem p hq))]
    show alookup (amap st.fields p.1 (fun f => (f.setErrors p.2).setDirty)) k = alookup st.fields k
    exact alookup_amap_ne st.fields p.1 k _ (Ne.symm (h p (List.mem_cons_self p rest)))

theorem populateValsPass_lookup_skip (vs : List (String × String))
    (st : FormState) (k : String) (h : ∀ p ∈ vs, p.1 ≠ k) :
    alookup (populateValsPass st vs).fields k = alookup st.fields k := by
  induction vs generalizing st with
  | nil => rfl
  | cons p rest ih =>
    have hstep : populateValsPass st (p :: rest)
        = populateValsPass (st.updateField p.1 (fun f => f.setValue p.2)) rest := rfl
    rw [hstep, ih _ (fun q hq => h q (List.mem_cons_of_mem p hq))]
    show alookup (amap st.fields p.1 (fun f => f.setValue p.2)) k = alookup st.fields k
    exact alookup_amap_ne st.fields p.1 k _ (Ne.symm (h p (List.mem_cons_self p rest)))

theorem populateErrsPass_keys (es : List (String × Option (List String))) (st : FormState) :
    (populateErrsPass st es).fields.map Prod.fst = st.fields.map Prod.fst := by
  induction es generalizing st with
  | nil => rfl
  | cons p rest ih =>
    have hstep : populateErrsPass st (p :: rest)
        = populateErrsPass (st.updateField p.1 (fun f => (f.setErrors p.2).setDirty)) rest := rfl
    rw [hstep, ih]
    show (amap st.fields p.1 (fun f => (f.setErrors p.2).setDirty)).map Prod.fst
        = st.fields.map Prod.fst
    exact amap_keys st.fields p.1 _

theorem populateValsPass_keys (vs : List (String × String)) (st : FormState) :
    (populateValsPass st vs).fields.map Prod.fst = st.fields.map Prod.fst := by
  induction vs generalizing st with
  | nil => rfl
  | cons p rest ih =>
    have hstep : populateValsPass st (p :: rest)
        = populateValsPass (st.updateField p.1 (fun f => f.setValue p.2)) rest := rfl
    rw [hstep, ih]
    show (amap st.fields p.1 (fun f => f.setValue p.2)).map Prod.fst = st.fields.map Prod.fst
    exact amap_keys st.fields p.1 _

/-- C10: `populate` modifies only the fields named by the keys of the server
result's errors map or values map: every field of the form named by neither
map keeps its entire state (value, dirty flag, errors, listeners), result
keys that name no field change no field's state (the `if (!field) return`
guards make them no-ops), and no field is added or removed. -/
theorem C10_populate_frame (st : FormState) (v : ServerValidationResult) (k : String)
    (f : FieldState) (hf : alookup st.fields k = some f)
    (hke : ∀ p ∈ v.errors, p.1 ≠ k) (hkv : ∀ p ∈ v.values, p.1 ≠ k) :
    alookup (st.populate v).fields k = some f ∧
    (st.populate v).fields.map Prod.fst = st.fields.map Prod.fst := by
  constructor
  · show alookup (populateValsPass (populateErrsPass st v.errors) v.values).fields k = some f
    rw [populateValsPass_lookup_skip _ _ _ hkv, populateErrsPass_lookup_skip _ _ _ hke, hf]
  · show (populateValsPass (populateErrsPass st v.errors) v.values).fields.map Prod.fst
        = st.fields.map Prod.fst
    rw [populateValsPass_keys, populateErrsPass_keys]

theorem C10_populate_frame_witness :
    alookup (exPairForm.populate exPairResult).fields "b" = some (field sampleOpts) :=
  (C10_populate_frame exPairForm exPairResult "b" (field sampleOpts) rfl
    (by
      intro p hp
      simp only [exPairResult] at hp
      rw [List.mem_singleton] at hp
      subst hp
      decide)
    (by
      intro p hp
      simp only [exPairResult] at hp
      rw [List.mem_singleton] at hp
      subst hp
      decide)).1

end SvelteKitForm

namespace SvelteKitForm

theorem registerEvent_dirty (s : FieldState) (e : String) :
    (s.registerEvent e).dirty = s.dirty := by
  cases hn : s.node <;> simp [FieldState.registerEvent, hn]

theorem registerEvent_value (s : FieldState) (e : String) :
    (s.registerEvent e).value = s.value := by
  cases hn : s.node <;> simp [FieldState.registerEvent, hn]

theorem setDirty_value (s : FieldState) : s.setDirty.value = s.value := by
  by_cases hd : s.dirty
  · simp [FieldState.setDirty, hd]
  · simp [FieldState.setDirty, hd, registerEvent_value]

theorem setDirty_dirty (s : FieldState) : s.setDirty.dirty = true := rfl

theorem foldl_registerEvent_dirty (evs : List String) (t : FieldState) :
    (evs.foldl (fun a e => a.registerEvent e) t).dirty = t.dirty := by
  induction evs generalizing t with
  | nil => rfl
  | cons e rest ih => rw [List.foldl_cons, ih, registerEvent_dirty]

theorem attach_dirty (s : FieldState) : s.attach.dirty = s.dirty := by
  show ((modeEvents s.options.mode).foldl (fun (t : FieldState) e => t.registerEvent e)
      { s with node := some (s.options.initialValue.getD "") }).dirty = s.dirty
  rw [foldl_registerEvent_dirty]

theorem step_nodirty (s : FieldState) (op : FieldOp) (hd : s.dirty = false)
    (h1 : op ≠ FieldOp.setDirty) (h2 : ∀ v, op ≠ FieldOp.handleEventFire v) :
    (s.step op).1.dirty = false ∧ (s.step op).2 = false := by
  cases op with
  | setValue v => exact ⟨hd, by simp [FieldState.step, hd]⟩
  | setDirty => exact absurd rfl h1
  | setErrors e => exact ⟨hd, rfl⟩
  | reset => exact ⟨rfl, rfl⟩
  | handleEventFire v => exact absurd rfl (h2 v)
  | attach => exact ⟨by rw [show (s.step FieldOp.attach).1 = s.attach from rfl, attach_dirty]; exact hd, rfl⟩

theorem runTrace_nodirty (s : FieldState) (ops : List FieldOp) (hd : s.dirty = false)
    (h : ∀ op ∈ ops, op ≠ FieldOp.setDirty ∧ ∀ v, op ≠ FieldOp.handleEventFire v) :
    (s.runTrace ops).2 = false := by
  induction ops generalizing s with
  | nil => rfl
  | cons op rest ih =>
    have hop := h op (List.mem_cons_self op rest)
    have hstep := step_nodirty s op hd hop.1 hop.2
    show ((s.step op).2 || ((s.step op).1.runTrace rest).2) = false
    rw [hstep.2, ih _ hstep.1 (fun q hq => h q (List.mem_cons_of_mem op hq))]
    rfl

/-- C8: The per-field subscription installed at form construction validates a
field exactly when the value store is set to a different value at a moment
when the dirty flag holds (for the DOM handler, the field is marked dirty
immediately before the value is set, so a changed value always validates); in
particular a field that is never dirtied — no `setDirty` and no DOM handler
firing in its trace — is never validated by the subscription, including at
mount, where the subscription's immediate first callback sees `dirty = false`
on a freshly constructed field. -/
theorem C8_subscription_validation :
    (∀ opts : FieldOptions, subscribeFire (field opts) = false) ∧
    (∀ (s : FieldState) (op : FieldOp),
      (s.step op).2 = true ↔
        ((∃ v, op = FieldOp.setValue v ∧ s.value ≠ some v ∧ s.dirty = true) ∨
         (∃ v, op = FieldOp.handleEventFire v ∧ s.value ≠ some v))) ∧
    (∀ (opts : FieldOptions) (ops : List FieldOp),
      (∀ op ∈ ops, op ≠ FieldOp.setDirty ∧ ∀ v, op ≠ FieldOp.handleEventFire v) →
      ((field opts).runTrace ops).2 = false) := by
  refine ⟨fun opts => rfl, fun s op => ?_, fun opts ops h => runTrace_nodirty _ _ rfl h⟩
  cases op with
  | setValue v => simp [FieldState.step, storeNotifies]
  | setDirty => simp [FieldState.step]
  | setErrors e => simp [FieldState.step]
  | reset => simp [FieldState.step]
  | handleEventFire v => simp [FieldState.step, storeNotifies, setDirty_value, setDirty_dirty]
  | attach => simp [FieldState.step]

theorem C8_subscription_validation_witness :
    ((field sampleOpts).runTrace [FieldOp.setValue "x"]).2 = false :=
  C8_subscription_validation.2.2 sampleOpts [FieldOp.setValue "x"]
    (by
      intro op hop
      rw [List.mem_singleton] at hop
      subst hop
      exact ⟨fun hc => FieldOp.noConfusion hc, fun v hc => FieldOp.noConfusion hc⟩)

end SvelteKitForm

namespace SvelteKitFormVariant

open SvelteKitForm (FieldMode alookup asetKey amap runValidators storedErrors anyError
  alookup_amap_self alookup_amap_ne alookup_asetKey_self alookup_asetKey_ne
  alookup_of_mem_nodup alookup_map_pair map_fst_pairmap)

theorem vRegisterEvent_dirty (f : VFieldState) (e : String) :
    (f.registerEvent e).dirty = f.dirty := by
  cases hn : f.node <;> simp [VFieldState.registerEvent, hn]

theorem vRegisterEvent_value (f : VFieldState) (e : String) :
    (f.registerEvent e).value = f.value := by
  cases hn : f.node <;> simp [VFieldState.registerEvent, hn]

theorem vSetDirty_dirty_of_wf (f : VFieldState) (h : f.alreadyDirty = f.dirty) :
    f.setDirty.dirty = true := by
  simp only [VFieldState.setDirty]
  by_cases ha : f.alreadyDirty = true
  · rw [if_pos ha, ← h]
    exact ha
  · rw [if_neg ha, vRegisterEvent_dirty]

theorem vReadValue_dirty (f : VFieldState) : f.readValue.dirty = f.dirty := by
  cases hn : f.node <;> simp [VFieldState.readValue, hn]

theorem vValidateField_preserve (st : VFormState) (k0 : String) (v : VValue) (k : String)
    (hne : k ≠ k0) :
    alookup (st.validateField k0 v).fields k = alookup st.fields k ∧
    alookup (st.validateField k0 v).errors k = alookup st.errors k := by
  cases hf : alookup st.fields k0 with
  | none => simp [VFormState.validateField, hf]
  | some f =>
    simp only [VFormState.validateField, hf]
    exact ⟨alookup_amap_ne st.fields k0 k _ hne, alookup_asetKey_ne st.errors k0 k _ hne⟩

theorem vValidateField_self (st : VFormState) (k : String) (f : VFieldState) (v : VValue)
    (hf : alookup st.fields k = some f) :
    alookup (st.validateField k v).fields k
      = some { f with errors := storedErrors (runValidators f.options.validators f.options.multipleErrors v) } ∧
    alookup (st.validateField k v).errors k
      = some (storedErrors (runValidators f.options.validators f.options.multipleErrors v)) := by
  simp only [VFormState.validateField, hf]
  refine ⟨?_, alookup_asetKey_self st.errors k _⟩
  rw [alookup_amap_self, hf]
  rfl

theorem vFold_preserve (l : List (String × VFieldState)) (acc : VFormState) (k : String)
    (h : ∀ r ∈ l, r.1 ≠ k) :
    alookup (l.foldl (fun a q => a.validateField q.1 q.2.value) acc).fields k
        = alookup acc.fields k ∧
    alookup (l.foldl (fun a q => a.validateField q.1 q.2.value) acc).errors k
        = alookup acc.errors k := by
  induction l generalizing acc with
  | nil => exact ⟨rfl, rfl⟩
  | cons q rest ih =>
    have hq : k ≠ q.1 := Ne.symm (h q (List.mem_cons_self q rest))
    have hpres := vValidateField_preserve acc q.1 q.2.value k hq
    have hrest := ih (acc.validateField q.1 q.2.value)
      (fun r hr => h r (List.mem_cons_of_mem q hr))
    rw [List.foldl_cons]
    exact ⟨hrest.1.trans hpres.1, hrest.2.trans hpres.2⟩

theorem vValidateAll_go (l : List (String × VFieldState)) (acc : VFormState)
    (hnd : (l.map Prod.fst).Nodup)
    (hinv : ∀ p ∈ l, alookup acc.fields p.1 = some p.2) :
    ∀ p ∈ l,
      alookup (l.foldl (fun a q => a.validateField q.1 q.2.value) acc).fields p.1
        = some { p.2 with errors := storedErrors (runValidators p.2.options.validators p.2.options.multipleErrors p.2.value) } ∧
      alookup (l.foldl (fun a q => a.validateField q.1 q.2.value) acc).errors p.1
        = some (storedErrors
            (runValidators p.2.options.validators p.2.options.multipleErrors p.2.value)) := by
  induction l generalizing acc with
  | nil => intro p hp; cases hp
  | cons q rest ih =>
    intro p hp
    have hq : alookup acc.fields q.1 = some q.2 := hinv q (List.mem_cons_self q rest)
    have hndq : q.1 ∉ rest.map Prod.fst := (List.nodup_cons.mp hnd).1
    have hndr : (rest.map Prod.fst).Nodup := (List.nodup_cons.mp hnd).2
    have hinv' : ∀ r ∈ rest,
        alookup (acc.validateField q.1 q.2.value).fields r.1 = some r.2 := by
      intro r hr
      have hner : r.1 ≠ q.1 := fun hrq => hndq (hrq ▸ List.mem_map.mpr ⟨r, hr, rfl⟩)
      rw [(vValidateField_preserve acc q.1 q.2.value r.1 hner).1]
      exact hinv r (List.mem_cons_of_mem q hr)
    rw [List.foldl_cons]
    rcases List.mem_cons.mp hp with hpq | hp'
    · subst hpq
      have hself := vValidateField_self acc p.1 p.2 p.2.value hq
      have hpres := vFold_preserve rest (acc.validateField p.1 p.2.value) p.1
        (fun r hr hrq => hndq (hrq ▸ List.mem_map.mpr ⟨r, hr, rfl⟩))
      exact ⟨hpres.1.trans hself.1, hpres.2.trans hself.2⟩
    · exact ih (acc.validateField q.1 q.2.value) hndr hinv' p hp'

theorem vValidateAll_lookup (st : VFormState) (hnd : (st.fields.map Prod.fst).Nodup)
    (k : String) (f : VFieldState) (hmem : (k, f) ∈ st.fields) :
    alookup st.validateAll.fields k
      = some { f with errors := storedErrors (runValidators f.options.validators f.options.multipleErrors f.value) } ∧
    alookup st.validateAll.errors k
      = some (storedErrors
          (runValidators f.options.validators f.options.multipleErrors f.value)) := by
  have hinv : ∀ p ∈ st.fields, alookup st.fields p.1 = some p.2 := by
    intro p hp
    exact alookup_of_mem_nodup hp hnd
  exact vValidateAll_go st.fields st hnd hinv (k, f) hmem

theorem prePass_lookup (st : VFormState) (k : String) :
    alookup st.prePass.fields k = (alookup st.fields k).map
      (fun f => if f.options.mode = FieldMode.onSubmit ∨ f.options.mode = FieldMode.all
                then f.setDirty.readValue else f) :=
  alookup_map_pair st.fields _ k

theorem prePass_keys (st : VFormState) :
    st.prePass.fields.map Prod.fst = st.fields.map Prod.fst :=
  map_fst_pairmap st.fields _

end SvelteKitFormVariant

namespace SvelteKitFormVariant

open SvelteKitForm (FieldMode alookup runValidators storedErrors anyError)

/-- C5 counterexample: a file-typed field (whose mode the variant's types
force to `onChange`) bound to an element with a selected file.  The
submission interceptor performs no fresh value read on it — its value store
still holds the initial empty string after `enhancer`, although `readValue`
would yield the selected file — because the interceptor re-reads only fields
whose mode is `onSubmit` or `all` (src/routes/user-form.ts, lines 206-211;
the primary library's enhancer, src/lib/form.ts lines 162-169, performs no
value read at all). -/
theorem C5_readValue_counterexample :
    exFileField.options.isFile = true ∧
    exFileField.options.mode = FieldMode.onChange ∧
    exFileField.readValue.value = VValue.file "f.png" ∧
    (alookup exFileForm.enhancer.1.fields "picture").map VFieldState.value
      = some (VValue.str "") :=
  ⟨rfl, rfl, rfl, rfl⟩

/-- C5 amended: before deciding, the variant submission interceptor marks
dirty and forces a fresh value read for exactly the fields whose mode is
`onSubmit` or `all` (file-typed fields, being constrained to mode `onChange`,
are not re-read and keep their value and dirtiness), awaits validation of
every field of the form against its post-read value, and invokes the cancel
capability if and only if the derived aggregate `anyError` flag is true after
all those validations complete. -/
theorem C5_enhancer_amended (st : VFormState)
    (hnd : (st.fields.map Prod.fst).Nodup)
    (hwf : ∀ p ∈ st.fields, p.2.alreadyDirty = p.2.dirty) :
    (st.enhancer.2 = anyError st.enhancer.1.errors) ∧
    (∀ k f, (k, f) ∈ st.fields →
      (f.options.mode = FieldMode.onSubmit ∨ f.options.mode = FieldMode.all) →
      ∃ f', alookup st.enhancer.1.fields k = some f' ∧
        f'.dirty = true ∧ f'.value = f.setDirty.readValue.value) ∧
    (∀ k f, (k, f) ∈ st.fields →
      ¬(f.options.mode = FieldMode.onSubmit ∨ f.options.mode = FieldMode.all) →
      ∃ f', alookup st.enhancer.1.fields k = some f' ∧
        f'.dirty = f.dirty ∧ f'.value = f.value) ∧
    (∀ k f, (k, f) ∈ st.prePass.fields →
      alookup st.enhancer.1.errors k
        = some (storedErrors
            (runValidators f.options.validators f.options.multipleErrors f.value))) := by
  have hndp : (st.prePass.fields.map Prod.fst).Nodup := by
    rw [prePass_keys]
    exact hnd
  refine ⟨rfl, ?_, ?_, ?_⟩
  · intro k f hmem hmode
    have hmem' : (k, f.setDirty.readValue) ∈ st.prePass.fields := by
      refine List.mem_map.mpr ⟨(k, f), hmem, ?_⟩
      show (k, if f.options.mode = FieldMode.onSubmit ∨ f.options.mode = FieldMode.all
               then f.setDirty.readValue else f) = (k, f.setDirty.readValue)
      rw [if_pos hmode]
    have hva := vValidateAll_lookup st.prePass hndp k (f.setDirty.readValue) hmem'
    refine ⟨_, hva.1, ?_, rfl⟩
    show (f.setDirty.readValue).dirty = true
    rw [vReadValue_dirty]
    exact vSetDirty_dirty_of_wf f (hwf (k, f) hmem)
  · intro k f hmem hmode
    have hmem' : (k, f) ∈ st.prePass.fields := by
      refine List.mem_map.mpr ⟨(k, f), hmem, ?_⟩
      show (k, if f.options.mode = FieldMode.onSubmit ∨ f.options.mode = FieldMode.all
               then f.setDirty.readValue else f) = (k, f)
      rw [if_neg hmode]
    have hva := vValidateAll_lookup st.prePass hndp k f hmem'
    exact ⟨_, hva.1, rfl, rfl⟩
  · intro k f hmem'
    exact (vValidateAll_lookup st.prePass hndp k f hmem').2

theorem C5_enhancer_amended_witness :
    exFileForm.enhancer.2 = anyError exFileForm.enhancer.1.errors :=
  (C5_enhancer_amended exFileForm (by decide) (by
    intro p hp
    simp only [exFileForm] at hp
    rw [List.mem_singleton] at hp
    subst hp
    rfl)).1

end SvelteKitFormVariant

namespace SvelteKitForm

/-- C3 amended: server-side `validateFormData` records, per field, the posted
value (defaulted to the empty string when the key is missing) and runs all of
that field's validators against it, collecting every failing message in
declared order — the `multipleErrors` option is not consulted and there is no
stop at the first failure (splitting the validator list shows later
validators always contribute their messages).  Each field's entry depends
only on its own validators and posted value, and the aggregate `anyError` is
set exactly when some field has a failing validator. -/
theorem C3_validateFormData_amended (fields : List (String × FieldOptions))
    (data : List (String × String)) (k : String) (f : FieldOptions)
    (hnd : (fields.map Prod.fst).Nodup) (hmem : (k, f) ∈ fields) :
    alookup (validateFormData fields data).errors k
      = some (storedErrors (serverErrs f.validators (formDataGet data k))) ∧
    alookup (validateFormData fields data).values k = some (formDataGet data k) ∧
    ((validateFormData fields data).anyError = true ↔
      ∃ p ∈ fields, serverErrs p.2.validators (formDataGet data p.1) ≠ []) ∧
    (∀ (vs1 vs2 : List (Validator (Option String))) (v : String),
      serverErrs (vs1 ++ vs2) v = serverErrs vs1 v ++ serverErrs vs2 v) := by
  refine ⟨?_, ?_, ?_, ?_⟩
  · show alookup (fields.map (fun p =>
        (p.1, storedErrors (serverErrs p.2.validators (formDataGet data p.1))))) k = _
    rw [alookup_map_pair fields
        (fun p => storedErrors (serverErrs p.2.validators (formDataGet data p.1))) k,
      alookup_of_mem_nodup hmem hnd]
    rfl
  · show alookup (fields.map (fun p => (p.1, formDataGet data p.1))) k = _
    rw [alookup_map_pair fields (fun p => formDataGet data p.1) k,
      alookup_of_mem_nodup hmem hnd]
    rfl
  · show (fields.any (fun p =>
        !(serverErrs p.2.validators (formDataGet data p.1)).isEmpty)) = true ↔ _
    rw [List.any_eq_true]
    constructor
    · rintro ⟨p, hp, hpe⟩
      exact ⟨p, hp, by simpa using hpe⟩
    · rintro ⟨p, hp, hpe⟩
      exact ⟨p, hp, by simpa using hpe⟩
  · intro vs1 vs2 v
    simp [serverErrs, List.filterMap_append]

theorem C3_validateFormData_amended_witness :
    alookup (validateFormData exTwoValFields []).errors "a"
      = some (storedErrors (serverErrs exTwoValOpts.validators (formDataGet [] "a"))) :=
  (C3_validateFormData_amended exTwoValFields [] "a" exTwoValOpts (by decide)
    (List.mem_singleton.mpr rfl)).1

end SvelteKitForm
